import Mathlib

/-!
# Void backend: the invitation lifecycle (`backend/invitation.go`)

A shallow embedding of the invitation entity, its store operations
(`LoadInvitationByEmail`, `LoadInvitationById`), token generation (`generateId`),
the lifecycle calls (`Invite`, `Activate`) and the REST handlers
(`getInvitation`, `createInvitation`, `editInvitation`), followed by the
properties of the specification that were checked against them.

Conventions.
* A Go `string` and a Go `[]byte` are byte sequences: `List Byte`.
* The Mongo collection `invitations` is the list of its documents in natural
  order. Every driver call takes an explicit `fault` argument: `some msg` makes
  the call fail with a driver error (connection lost, timeout, ...) and leaves
  the collection as it was.
* Values supplied by the surroundings (`rand.Int63()`, `bson.NewObjectId()`,
  the result of `User.Save`) are arguments.
* Every lifecycle call returns, besides its Go result, the collection afterwards
  and the list of collaborator calls it made, in order.
-/

namespace Void

/-! ## Bytes and strings -/

/-- A Go `byte`. -/
abbrev Byte := Fin 256

/-- A Go `string` (also used for `[]byte`): a sequence of bytes. -/
abbrev GoString := List Byte

/-- The bytes of an ASCII text, used to write concrete strings. -/
def ascii (s : String) : GoString := s.toList.map fun c => Fin.ofNat c.toNat

/-! ## `encoding/hex` and `encoding/binary` -/

/-- The table `hextable = "0123456789abcdef"` of `encoding/hex`. -/
def hextable : List Byte :=
  [48, 49, 50, 51, 52, 53, 54, 55, 56, 57, 97, 98, 99, 100, 101, 102]

/-- The function `hex.EncodeToString(src)`: for every `v` of `src` the two bytes
`hextable[v>>4]`, `hextable[v&0x0f]`. -/
def EncodeToString (src : List Byte) : GoString :=
  src.flatMap fun v => [hextable.getD (v.val >>> 4) 0, hextable.getD (v.val &&& 0x0f) 0]

/-- The function `binary.LittleEndian.PutUint64(b, v)`: `b[0] = byte(v)`,
`b[1] = byte(v >> 8)`, ..., `b[7] = byte(v >> 56)`. -/
def PutUint64 (b : List Byte) (v : Nat) : List Byte :=
  let b := b.set 0 (Fin.ofNat v)
  let b := b.set 1 (Fin.ofNat (v >>> 8))
  let b := b.set 2 (Fin.ofNat (v >>> 16))
  let b := b.set 3 (Fin.ofNat (v >>> 24))
  let b := b.set 4 (Fin.ofNat (v >>> 32))
  let b := b.set 5 (Fin.ofNat (v >>> 40))
  let b := b.set 6 (Fin.ofNat (v >>> 48))
  b.set 7 (Fin.ofNat (v >>> 56))

/-- The result type `[64]byte` of `sha512.Sum512`. -/
abbrev Digest := { d : List Byte // d.length = 64 }

/-! ## The entity -/

/-- The type `bson.ObjectId`: a string, valid when it has 12 bytes. -/
abbrev ObjectId := GoString

/-- The method `ObjectId.Hex()`: `hex.EncodeToString([]byte(id))`. -/
def ObjectId.Hex (id : ObjectId) : GoString := EncodeToString id

/-- The struct `Invitation`. -/
structure Invitation where
  MongoId : ObjectId
  Id : GoString
  Email : GoString
  Password : GoString
  Organization : GoString
  deriving DecidableEq, Repr

/-- The value `new(Invitation)`: every field zero. -/
def Invitation.zero : Invitation := ⟨[], [], [], [], []⟩

/-- The struct `InvitationWrapper`; `none` is the nil pointer. -/
structure InvitationWrapper where
  Invitation : Option Invitation
  deriving DecidableEq, Repr

/-- The method `generateId`, with `sum512` for `sha512.Sum512` and `r` for the
value returned by `rand.Int63()`; `uint64(r)` is `r % 2^64`. -/
def Invitation.generateId (sum512 : List Byte → Digest) (r : Nat) (i : Invitation) : GoString :=
  let s : List Byte := List.replicate 8 0
  let s := PutUint64 s (r % 2 ^ 64)
  let s := s ++ ObjectId.Hex i.MongoId
  let s := s ++ i.Email
  let sum := sum512 s
  EncodeToString ((sum.val.drop 0).take (64 - 0))

/-- The slice `s` that `generateId` has built when it calls `sha512.Sum512(s)`. -/
def Invitation.digested (r : Nat) (i : Invitation) : List Byte :=
  let s : List Byte := List.replicate 8 0
  let s := PutUint64 s (r % 2 ^ 64)
  let s := s ++ ObjectId.Hex i.MongoId
  s ++ i.Email

/-! ### The token as the specification words it -/

/-- The 8-byte little-endian encoding of `r`: byte `k` is digit `k` of `r` in
base 256. -/
def littleEndian64 (r : Nat) : List Byte :=
  (List.range 8).map fun k => Fin.ofNat (r / 256 ^ k)

/-- The lowercase hex character of a digit below 16: `0`-`9`, then `a`-`f`. -/
def lowerHexChar (n : Nat) : Byte :=
  if n < 10 then Fin.ofNat (48 + n) else Fin.ofNat (87 + n)

/-- The lowercase hex text of a byte sequence: two characters per byte, high
digit first. -/
def lowerHex (bs : List Byte) : GoString :=
  bs.flatMap fun b => [lowerHexChar (b.val / 16), lowerHexChar (b.val % 16)]

/-- The token of the specification: the hex encoding of the full digest of
`littleEndian64 r ++ lowerHex k ++ e`. -/
def specToken (digest : List Byte → Digest) (r : Nat) (k : ObjectId) (e : GoString) : GoString :=
  lowerHex (digest (littleEndian64 r ++ lowerHex k ++ e)).val

/-- A byte is one of the characters `0`-`9`, `a`-`f`. -/
def isLowerHexChar (c : Byte) : Prop := (48 ≤ c.val ∧ c.val ≤ 57) ∨ (97 ≤ c.val ∧ c.val ≤ 102)

instance (c : Byte) : Decidable (isLowerHexChar c) := by
  unfold isLowerHexChar; infer_instance

/-! ## Errors -/

/-- The Go `error` values that occur: the one `Invite` builds with `errors.New`,
the driver's `mgo.ErrNotFound`, and any other error from the driver or from the
account collaborator. -/
inductive GoError where
  | alreadyInvited
  | ErrNotFound
  | failure (msg : String)
  deriving DecidableEq, Repr

/-- The method `Error()` of the error values. -/
def GoError.Error : GoError → String
  | .alreadyInvited => "invitation to this email already exists"
  | .ErrNotFound => "not found"
  | .failure msg => msg

/-! ## The collection `invitations` and the driver calls on it -/

/-- The documents of `mongo.DB(config.MongoDB).C("invitations")`, in natural
order. The bson keys of a document are `_id`, `id`, `email`, `password`,
`organization` (the lowercased field names; `_id` by its tag). -/
abbrev Store := List Invitation

/-- A query document `bson.M{key: value}` with one of the keys used in the file. -/
inductive Query where
  | byEmail (eml : GoString)
  | byId (token : GoString)
  deriving DecidableEq, Repr

/-- Whether a document matches a query. -/
def Query.matches : Query → Invitation → Bool
  | .byEmail eml, x => decide (x.Email = eml)
  | .byId token, x => decide (x.Id = token)

/-- The driver call `C.Find(q).One(&x)`: the first matching document,
`mgo.ErrNotFound` when there is none, a driver error under a fault. -/
def FindOne (fault : Option String) (c : Store) (q : Query) : Except GoError Invitation :=
  match fault with
  | some msg => .error (.failure msg)
  | none =>
    match c.find? q.matches with
    | some x => .ok x
    | none => .error .ErrNotFound

/-- The driver call `C.Insert(doc)`: appends the document; under a fault it
fails and the collection stays as it was. -/
def Insert (fault : Option String) (c : Store) (doc : Invitation) : Store × Option GoError :=
  match fault with
  | some msg => (c, some (.failure msg))
  | none => (c ++ [doc], none)

/-- The driver call `C.Remove(q)`: removes a single matching document (the first
one), `mgo.ErrNotFound` when there is none (the session is in safe mode, the
driver's default); under a fault it fails and the collection stays as it was. -/
def Remove (fault : Option String) (c : Store) (q : Query) : Store × Option GoError :=
  match fault with
  | some msg => (c, some (.failure msg))
  | none =>
    match c.find? q.matches with
    | some _ => (c.eraseP q.matches, none)
    | none => (c, some .ErrNotFound)

/-- The function `LoadInvitationByEmail`. -/
def LoadInvitationByEmail (fault : Option String) (c : Store) (eml : GoString) :
    Except GoError Invitation :=
  FindOne fault c (.byEmail eml)

/-- The function `LoadInvitationById`. -/
def LoadInvitationById (fault : Option String) (c : Store) (id : GoString) :
    Except GoError Invitation :=
  FindOne fault c (.byId id)

/-! ## The account collaborator -/

/-- Modelled from the spec: the struct `User` of the account collaborator
(`user.go`, not part of the file), with the three fields of an account request:
email, organization and the stored password. -/
structure User where
  Email : GoString
  Organization : GoString
  Password : GoString
  deriving DecidableEq, Repr

/-- The value `new(User)`. -/
def User.zero : User := ⟨[], [], []⟩

/-- Modelled from the spec: the method `User.SetPassword`, which stores the
password one-way hashed; `hash` is the collaborator's hash function. -/
def User.SetPassword (hash : GoString → GoString) (u : User) (pw : GoString) : User :=
  { u with Password := hash pw }

/-! ## The lifecycle -/

/-- A call made to a collaborator. -/
inductive Call where
  | find (q : Query)
  | insert (doc : Invitation)
  | remove (q : Query)
  | save (u : User)
  deriving DecidableEq, Repr

/-- What the surroundings supply to one call of `Invite`. -/
structure InviteEnv where
  findFault : Option String
  int63 : Nat
  newObjectId : ObjectId
  insertFault : Option String
  deriving DecidableEq, Repr

/-- The result of one call of `Invite`: the returned error (`none` is `nil`),
the receiver after the call, the collection after the call, the calls made. -/
structure InviteResult where
  err : Option GoError
  inv : Invitation
  store : Store
  calls : List Call
  deriving DecidableEq, Repr

/-- The method `Invite`. -/
def Invitation.Invite (sum512 : List Byte → Digest) (env : InviteEnv) (c : Store)
    (i : Invitation) : InviteResult :=
  match LoadInvitationByEmail env.findFault c i.Email with
  | .ok _ => ⟨some .alreadyInvited, i, c, [.find (.byEmail i.Email)]⟩
  | .error _ =>
    let i := { i with MongoId := env.newObjectId }
    let i := { i with Id := i.generateId sum512 env.int63 }
    let r := Insert env.insertFault c i
    ⟨r.2, i, r.1, [.find (.byEmail i.Email), .insert i]⟩

/-- What the surroundings supply to one call of `Activate`: the password hash
and the result of `user.Save()` of the account collaborator, and the fault of
the driver call. -/
structure ActivateEnv where
  hash : GoString → GoString
  save : User → Option GoError
  removeFault : Option String

/-- The result of one call of `Activate`. -/
structure ActivateResult where
  err : Option GoError
  store : Store
  calls : List Call
  deriving DecidableEq, Repr

/-- The method `Activate`. -/
def Invitation.Activate (env : ActivateEnv) (c : Store) (i d : Invitation) : ActivateResult :=
  let user := User.zero
  let user := { user with Email := i.Email }
  let user := { user with Organization := d.Organization }
  let user := user.SetPassword env.hash d.Password
  match env.save user with
  | none =>
    let r := Remove env.removeFault c (.byId i.Id)
    ⟨r.2, r.1, [.save user, .remove (.byId i.Id)]⟩
  | some err => ⟨some err, c, [.save user]⟩

/-! ## The REST resource: `unicode/utf8`, `encoding/json` and the handlers -/

/-- The tables `first` and `acceptRanges` of `unicode/utf8`: for a leading byte
that is not ASCII, the size of the encoding it starts and the range accepted for
the second byte; `none` for a byte that starts no encoding (`0x80`-`0xC1`,
`0xF5`-`0xFF`). -/
def utf8First (s0 : Byte) : Option (Nat × Nat × Nat) :=
  if 0xC2 ≤ s0.val ∧ s0.val ≤ 0xDF then some (2, 0x80, 0xBF)
  else if s0.val = 0xE0 then some (3, 0xA0, 0xBF)
  else if s0.val = 0xED then some (3, 0x80, 0x9F)
  else if 0xE1 ≤ s0.val ∧ s0.val ≤ 0xEF then some (3, 0x80, 0xBF)
  else if s0.val = 0xF0 then some (4, 0x90, 0xBF)
  else if 0xF1 ≤ s0.val ∧ s0.val ≤ 0xF3 then some (4, 0x80, 0xBF)
  else if s0.val = 0xF4 then some (4, 0x80, 0x8F)
  else none

/-- The size returned by `utf8.DecodeRuneInString(s)` for a string whose first
byte is not ASCII: `some size` (2, 3 or 4) for a valid encoding, `none` for the
result `(RuneError, 1)` of an invalid or cut-off one. Continuation bytes lie in
`0x80`-`0xBF` (`locb`, `hicb`), the second byte in the range of the table. -/
def DecodeRuneSize (s : GoString) : Option Nat :=
  match s with
  | [] => none
  | s0 :: rest =>
    match utf8First s0 with
    | none => none
    | some (sz, lo, hi) =>
      if s.length < sz then none
      else
        match rest with
        | [] => none
        | s1 :: rest =>
          if s1.val < lo ∨ hi < s1.val then none
          else if sz ≤ 2 then some 2
          else
            match rest with
            | [] => none
            | s2 :: rest =>
              if s2.val < 0x80 ∨ 0xBF < s2.val then none
              else if sz ≤ 3 then some 3
              else
                match rest with
                | [] => none
                | s3 :: _ =>
                  if s3.val < 0x80 ∨ 0xBF < s3.val then none
                  else some 4

/-- The loop of `encodeState.string` of `encoding/json`, read as the string value
a JSON parser gets back (the escapes of quotes, control and HTML characters
denote the same characters, so at this level they are copied). An ASCII byte is
copied; at any other byte `utf8.DecodeRuneInString` is called: on
`(RuneError, 1)` the escape of the replacement character U+FFFD (bytes
`EF BF BD`) is written for the one byte, otherwise the `size` bytes of the
encoding are copied. The first argument counts the bytes of the current
encoding still to be copied (the source's `i += size`). -/
def jsonStringFrom : Nat → GoString → GoString
  | _, [] => []
  | pending + 1, b :: rest => b :: jsonStringFrom pending rest
  | 0, b :: rest =>
    if b.val < 0x80 then b :: jsonStringFrom 0 rest
    else
      match DecodeRuneSize (b :: rest) with
      | none => [0xEF, 0xBF, 0xBD] ++ jsonStringFrom 0 rest
      | some size => b :: jsonStringFrom (size - 1) rest

/-- The string value `encoding/json` writes for a Go string. -/
def jsonString (s : GoString) : GoString := jsonStringFrom 0 s

/-- The loop of `utf8.ValidString`: every byte is ASCII or starts a valid
encoding; the first argument counts the bytes of the current encoding still to
be passed over. -/
def validFrom : Nat → GoString → Bool
  | _, [] => true
  | pending + 1, _ :: rest => validFrom pending rest
  | 0, b :: rest =>
    if b.val < 0x80 then validFrom 0 rest
    else
      match DecodeRuneSize (b :: rest) with
      | none => false
      | some size => validFrom (size - 1) rest

/-- The function `utf8.ValidString`. -/
def ValidString (s : GoString) : Bool := validFrom 0 s

/-- A JSON value, as far as the responses need it; a string is held as the
bytes of its characters in UTF-8. -/
inductive Json where
  | null
  | str (s : GoString)
  | obj (members : List (String × Json))

/-- The JSON object `encoding/json` writes for an `Invitation`: one member per
exported field, under the field name unless a `json` tag renames it; `Id` is
tagged `json:"id,omitempty"` and left out when empty; `MongoId` is written by
`ObjectId.MarshalJSON` as its hex text; the string fields are written by
`encodeState.string`. No field is tagged `json:"-"`. -/
def Invitation.MarshalJSON (i : Invitation) : Json :=
  .obj ([("MongoId", .str (ObjectId.Hex i.MongoId))]
    ++ (if i.Id = [] then [] else [("id", .str (jsonString i.Id))])
    ++ [("Email", .str (jsonString i.Email)), ("Password", .str (jsonString i.Password)),
        ("Organization", .str (jsonString i.Organization))])

/-- The JSON object written for an `InvitationWrapper`: its one field, `null`
for the nil pointer. -/
def InvitationWrapper.MarshalJSON (iw : InvitationWrapper) : Json :=
  .obj [("Invitation", match iw.Invitation with
                       | some i => i.MarshalJSON
                       | none => .null)]

/-- What a handler needs of a `restful.Request`: the result of
`getRequestUser(req)` (`none` is nil), the path parameter `entry`, and what
`req.ReadEntity(iw)` decodes the body to (`none` when decoding fails). -/
structure Request where
  user : Option User
  entry : GoString
  entity : Option InvitationWrapper

/-- What a handler wrote to the `restful.Response`. -/
inductive Response where
  | entity (body : Json)
  | errorString (status : Nat) (msg : String)
  | nothing

/-- How a handler run ends: it returns, or it stops in the run-time panic of
reading a field through a nil pointer. -/
inductive Ended (α : Type) where
  | returned (a : α)
  | nilDereference

/-- The handler `getInvitation`. -/
def getInvitation (fault : Option String) (c : Store) (req : Request) : Response :=
  match LoadInvitationById fault c req.entry with
  | .ok inv =>
    let iw : InvitationWrapper := ⟨none⟩
    let iw := { iw with Invitation := some inv }
    .entity iw.MarshalJSON
  | .error _ => .errorString 404 "no such invitation"

/-- The handler `createInvitation`. The call `iw.Invitation.Invite()` passes the
pointer as it is; the first statement of `Invite` reads `i.Email` through it, so
a nil pointer panics there, before any collaborator call. -/
def createInvitation (sum512 : List Byte → Digest) (env : InviteEnv) (c : Store)
    (req : Request) : Ended (Response × Store) :=
  match req.user with
  | none => .returned (.errorString 403 "you must be logged in to do that", c)
  | some _ =>
    match req.entity with
    | some iw =>
      match iw.Invitation with
      | none => .nilDereference
      | some i =>
        let r := i.Invite sum512 env c
        match r.err with
        | some err => .returned (.errorString 500 err.Error, r.store)
        | none => .returned (.entity (InvitationWrapper.MarshalJSON ⟨some r.inv⟩), r.store)
    | none => .returned (.errorString 400 "bad invitation", c)

/-- The handler `editInvitation`. The call `inv.Activate(iw.Invitation)` passes
the pointer as it is; `Activate` reads `d.Organization` through it in its third
statement, so a nil pointer panics there, before `Save` and `Remove`. -/
def editInvitation (fault : Option String) (env : ActivateEnv) (c : Store)
    (req : Request) : Ended (Response × Store) :=
  match LoadInvitationById fault c req.entry with
  | .ok inv =>
    match req.entity with
    | some iw =>
      match iw.Invitation with
      | none => .nilDereference
      | some d =>
        let r := inv.Activate env c d
        match r.err with
        | some err => .returned (.errorString 400 err.Error, r.store)
        | none => .returned (.nothing, r.store)
    | none => .returned (.errorString 400 "bad invitation", c)
  | .error _ => .returned (.errorString 404 "no such invitation", c)

/-! ## Properties of the store -/

/-- The collection holds at most one invitation per email. -/
def AtMostOnePerEmail (c : Store) : Prop := (c.map (·.Email)).Nodup

instance (c : Store) : Decidable (AtMostOnePerEmail c) := by
  unfold AtMostOnePerEmail; infer_instance

/-- At most one document of the collection carries the token. -/
def TokenUnique (c : Store) (token : GoString) : Prop :=
  (c.filter fun x => decide (x.Id = token)).length ≤ 1

instance (c : Store) (token : GoString) : Decidable (TokenUnique c token) := by
  unfold TokenUnique; infer_instance

/-- A digest used in the examples: the first 64 bytes of the input, filled up
with zeros. It stands for `sha512.Sum512` where a concrete function is needed. -/
def exampleSum512 (s : List Byte) : Digest :=
  ⟨(s ++ List.replicate 64 0).take 64, by simp⟩

/-! ## Names for intermediate values -/

/-- The receiver of `Invite` after `i.MongoId = bson.NewObjectId()` and
`i.Id = i.generateId()`: the document handed to `Insert`. -/
def Invitation.assigned (sum512 : List Byte → Digest) (env : InviteEnv) (i : Invitation) :
    Invitation :=
  let i := { i with MongoId := env.newObjectId }
  { i with Id := i.generateId sum512 env.int63 }

/-- The `user` of `Activate` when it calls `user.Save()`. -/
def accountRequest (env : ActivateEnv) (i d : Invitation) : User :=
  let user := User.zero
  let user := { user with Email := i.Email }
  let user := { user with Organization := d.Organization }
  user.SetPassword env.hash d.Password

/-- The users handed to `Save` among the calls made. -/
def savedUsers (calls : List Call) : List User :=
  calls.filterMap fun
    | .save u => some u
    | _ => none

/-- The stores reachable from the empty store by calls of `Invite` whose lookup
is answered by the store (no driver fault in the lookup) and calls of
`Activate`, with any other outcome of the collaborators. -/
inductive Reachable (sum512 : List Byte → Digest) : Store → Prop where
  | empty : Reachable sum512 []
  | invite (c : Store) (env : InviteEnv) (i : Invitation) :
      Reachable sum512 c → env.findFault = none →
      Reachable sum512 (i.Invite sum512 env c).store
  | activate (c : Store) (env : ActivateEnv) (i d : Invitation) :
      Reachable sum512 c → Reachable sum512 (i.Activate env c d).store

/-- The member of a JSON object under a key, if any. -/
def Json.member (key : String) : Json → Option Json
  | .obj members => (members.find? fun m => m.1 == key).map (·.2)
  | _ => none

/-- The text under `Invitation.Password` of a response entity, if the response
is an entity that has one. -/
def Response.echoedPassword : Response → Option Json
  | .entity body => (body.member "Invitation").bind (Json.member "Password")
  | _ => none

/-- The response of a handler run that returned. -/
def Ended.response : Ended (Response × Store) → Option Response
  | .returned a => some a.1
  | .nilDereference => none

/-! # Theorems -/

/-! ## Hex and little-endian encoding -/

theorem hextable_getD (n : Nat) (h : n < 16) : hextable.getD n 0 = lowerHexChar n := by
  interval_cases n <;> rfl

theorem hextable_high (v : Byte) : hextable.getD (v.val >>> 4) 0 = lowerHexChar (v.val / 16) := by
  rw [Nat.shiftRight_eq_div_pow]
  exact hextable_getD _ (by have := v.isLt; omega)

theorem hextable_low (v : Byte) : hextable.getD (v.val &&& 0x0f) 0 = lowerHexChar (v.val % 16) := by
  have h : v.val &&& 0x0f = v.val % 16 := Nat.and_pow_two_sub_one_eq_mod v.val 4
  rw [h]
  exact hextable_getD _ (Nat.mod_lt _ (by decide))

theorem EncodeToString_eq_lowerHex (src : List Byte) : EncodeToString src = lowerHex src := by
  unfold EncodeToString lowerHex
  congr 1
  funext v
  rw [hextable_high, hextable_low]

theorem PutUint64_eq_littleEndian64 (r : Nat) :
    PutUint64 (List.replicate 8 0) (r % 2 ^ 64) = littleEndian64 r := by
  simp only [PutUint64, littleEndian64, List.replicate, List.set, List.range, List.range.loop,
    List.map, Nat.shiftRight_eq_div_pow]
  simp only [List.cons.injEq, and_true, Fin.ofNat, Fin.mk.injEq]
  refine ⟨?_, ?_, ?_, ?_, ?_, ?_, ?_, ?_⟩ <;> omega

theorem lowerHex_length (bs : List Byte) : (lowerHex bs).length = 2 * bs.length := by
  induction bs with
  | nil => rfl
  | cons b bs ih =>
    have h : lowerHex (b :: bs)
        = lowerHexChar (b.val / 16) :: lowerHexChar (b.val % 16) :: lowerHex bs := rfl
    rw [h, List.length_cons, List.length_cons, ih, List.length_cons]
    omega

theorem lowerHexChar_isLowerHexChar (n : Nat) (h : n < 16) : isLowerHexChar (lowerHexChar n) := by
  interval_cases n <;> decide

theorem lowerHex_chars (bs : List Byte) : ∀ c ∈ lowerHex bs, isLowerHexChar c := by
  intro c hc
  simp only [lowerHex, List.mem_flatMap, List.mem_cons, List.mem_singleton, List.not_mem_nil,
    or_false] at hc
  obtain ⟨b, -, rfl | rfl⟩ := hc
  · exact lowerHexChar_isLowerHexChar _ (by have := b.isLt; omega)
  · exact lowerHexChar_isLowerHexChar _ (Nat.mod_lt _ (by decide))

theorem lowerHexChar_inj (n m : Nat) (hn : n < 16) (hm : m < 16)
    (h : lowerHexChar n = lowerHexChar m) : n = m := by
  interval_cases n <;> interval_cases m <;> first | rfl | (exact absurd h (by decide))

theorem lowerHex_injective : ∀ a b : List Byte, lowerHex a = lowerHex b → a = b := by
  intro a
  induction a with
  | nil =>
    intro b h
    cases b with
    | nil => rfl
    | cons y ys => exact absurd h (by simp [lowerHex])
  | cons x xs ih =>
    intro b h
    cases b with
    | nil => exact absurd h (by simp [lowerHex])
    | cons y ys =>
      have hx : lowerHex (x :: xs)
          = lowerHexChar (x.val / 16) :: lowerHexChar (x.val % 16) :: lowerHex xs := rfl
      have hy : lowerHex (y :: ys)
          = lowerHexChar (y.val / 16) :: lowerHexChar (y.val % 16) :: lowerHex ys := rfl
      rw [hx, hy] at h
      simp only [List.cons.injEq] at h
      obtain ⟨h1, h2, h3⟩ := h
      have e1 := lowerHexChar_inj _ _ (by have := x.isLt; omega) (by have := y.isLt; omega) h1
      have e2 := lowerHexChar_inj _ _ (Nat.mod_lt _ (by decide)) (Nat.mod_lt _ (by decide)) h2
      have exy : x = y := Fin.ext (by omega)
      rw [exy, ih ys h3]

theorem littleEndian64_length (r : Nat) : (littleEndian64 r).length = 8 := by
  simp [littleEndian64]

theorem littleEndian64_inj (r1 r2 : Nat) (h1 : r1 < 2 ^ 64) (h2 : r2 < 2 ^ 64)
    (h : littleEndian64 r1 = littleEndian64 r2) : r1 = r2 := by
  simp only [littleEndian64, List.range, List.range.loop, List.map, List.cons.injEq, and_true,
    Fin.ofNat, Fin.mk.injEq] at h
  omega

theorem digested_eq (r : Nat) (i : Invitation) :
    i.digested r = littleEndian64 r ++ lowerHex i.MongoId ++ i.Email := by
  simp only [Invitation.digested, ObjectId.Hex, PutUint64_eq_littleEndian64,
    EncodeToString_eq_lowerHex]

theorem generateId_eq (sum512 : List Byte → Digest) (r : Nat) (i : Invitation) :
    i.generateId sum512 r = lowerHex (sum512 (i.digested r)).val := by
  have hlen := (sum512 (i.digested r)).property
  simp only [Invitation.generateId, Invitation.digested, EncodeToString_eq_lowerHex,
    List.drop_zero, Nat.sub_zero] at hlen ⊢
  rw [List.take_of_length_le (le_of_eq hlen)]

/-! ## Token generation -/

/-- C7: for every value `r` of the random source (in particular every
`0 ≤ r < 2^63`), every internal key and every email, `generateId` returns the
lowercase hex encoding of the full 64-byte digest of (8-byte little-endian
encoding of `r`) ++ (lowercase hex text of the key) ++ (bytes of the email); the
token has exactly 128 characters, each one of `0`-`9`, `a`-`f`. -/
theorem generateId_refines_specToken (sum512 : List Byte → Digest) (r : Nat) (i : Invitation) :
    i.generateId sum512 r = specToken sum512 r i.MongoId i.Email
      ∧ (i.generateId sum512 r).length = 128
      ∧ ∀ c ∈ i.generateId sum512 r, isLowerHexChar c := by
  have h : i.generateId sum512 r = lowerHex (sum512 (i.digested r)).val := generateId_eq sum512 r i
  refine ⟨?_, ?_, ?_⟩
  · rw [h, digested_eq]; rfl
  · rw [h, lowerHex_length, (sum512 (i.digested r)).property]
  · rw [h]; exact lowerHex_chars _

/-- C7, at an instance: a 12-byte key and the empty email. -/
theorem generateId_refines_specToken_witness :
    ((Invitation.mk (List.replicate 12 1) [] [] [] []).generateId exampleSum512 5).length = 128
      ∧ (Invitation.mk (List.replicate 12 1) [] [] [] []).generateId exampleSum512 5
        = specToken exampleSum512 5 (List.replicate 12 1) [] :=
  ⟨(generateId_refines_specToken exampleSum512 5
      (Invitation.mk (List.replicate 12 1) [] [] [] [])).2.1,
   (generateId_refines_specToken exampleSum512 5
      (Invitation.mk (List.replicate 12 1) [] [] [] [])).1⟩

/-- C8: for random values below `2^63`, internal keys of 12 bytes (24 hex
characters) and distinct emails or distinct random values, the byte sequences
that `generateId` digests differ; so the tokens differ when the digest does not
collide on these two sequences. -/
theorem generateId_distinct (sum512 : List Byte → Digest) (r1 r2 : Nat) (i1 i2 : Invitation)
    (hr1 : r1 < 2 ^ 63) (hr2 : r2 < 2 ^ 63)
    (hk1 : i1.MongoId.length = 12) (hk2 : i2.MongoId.length = 12)
    (hne : i1.Email ≠ i2.Email ∨ r1 ≠ r2)
    (hfree : sum512 (i1.digested r1) = sum512 (i2.digested r2) →
      i1.digested r1 = i2.digested r2) :
    i1.digested r1 ≠ i2.digested r2 ∧ i1.generateId sum512 r1 ≠ i2.generateId sum512 r2 := by
  have hdig : i1.digested r1 ≠ i2.digested r2 := by
    intro h
    rw [digested_eq, digested_eq] at h
    have hlen : (littleEndian64 r1 ++ lowerHex i1.MongoId).length
        = (littleEndian64 r2 ++ lowerHex i2.MongoId).length := by
      simp only [List.length_append, littleEndian64_length, lowerHex_length, hk1, hk2]
    obtain ⟨hpre, hmail⟩ := List.append_inj h hlen
    have hle : (littleEndian64 r1).length = (littleEndian64 r2).length := by
      simp only [littleEndian64_length]
    obtain ⟨hr, -⟩ := List.append_inj hpre hle
    have hreq : r1 = r2 := littleEndian64_inj r1 r2 (by omega) (by omega) hr
    rcases hne with hne | hne
    · exact hne hmail
    · exact hne hreq
  refine ⟨hdig, ?_⟩
  intro h
  rw [generateId_eq, generateId_eq] at h
  exact hdig (hfree (Subtype.ext (lowerHex_injective _ _ h)))

/-- C8, at an instance: two invitations with 12-byte keys and distinct emails. -/
theorem generateId_distinct_witness :
    (Invitation.mk (List.replicate 12 1) [] (ascii "a@x.org") [] []).generateId exampleSum512 5
      ≠ (Invitation.mk (List.replicate 12 2) [] (ascii "b@x.org") [] []).generateId
          exampleSum512 5 :=
  (generateId_distinct exampleSum512 5 5
    (Invitation.mk (List.replicate 12 1) [] (ascii "a@x.org") [] [])
    (Invitation.mk (List.replicate 12 2) [] (ascii "b@x.org") [] [])
    (by decide) (by decide) (by decide) (by decide) (Or.inl (by decide)) (by decide)).2

/-! ## The driver calls -/

theorem find?_append_matching (c : Store) (doc : Invitation) (q : Query)
    (h : q.matches doc = true) : ∃ x, (c ++ [doc]).find? q.matches = some x := by
  have hsome : ((c ++ [doc]).find? q.matches).isSome = true := by
    rw [List.find?_isSome]
    exact ⟨doc, by simp, h⟩
  exact Option.isSome_iff_exists.mp hsome

theorem find?_eraseP_of_unique (p : Invitation → Bool) :
    ∀ c : Store, (c.filter p).length ≤ 1 → (c.eraseP p).find? p = none := by
  intro c
  induction c with
  | nil => intro _; rfl
  | cons x xs ih =>
    intro h
    by_cases hx : p x = true
    · rw [List.eraseP_cons_of_pos hx]
      rw [List.filter_cons_of_pos hx, List.length_cons] at h
      have hnil : xs.filter p = [] := List.length_eq_zero.mp (by omega)
      rw [List.find?_eq_none]
      intro y hy hpy
      have hmem : y ∈ xs.filter p := List.mem_filter.mpr ⟨hy, hpy⟩
      rw [hnil] at hmem
      exact absurd hmem (List.not_mem_nil y)
    · rw [List.eraseP_cons_of_neg hx, List.find?_cons_of_neg _ hx]
      rw [List.filter_cons_of_neg hx] at h
      exact ih h

theorem FindOne_ok_matches (fault : Option String) (c : Store) (q : Query) (x : Invitation)
    (h : FindOne fault c q = .ok x) : fault = none ∧ c.find? q.matches = some x := by
  unfold FindOne at h
  cases fault with
  | some msg => simp at h
  | none =>
    refine ⟨rfl, ?_⟩
    cases hf : c.find? q.matches with
    | none => simp [hf] at h
    | some y =>
      simp only [hf, Except.ok.injEq] at h
      rw [h]

/-! ## Shape of the lifecycle calls -/

theorem Invite_of_found (sum512 : List Byte → Digest) (env : InviteEnv) (c : Store)
    (i x : Invitation) (h : LoadInvitationByEmail env.findFault c i.Email = .ok x) :
    i.Invite sum512 env c = ⟨some .alreadyInvited, i, c, [.find (.byEmail i.Email)]⟩ := by
  simp only [Invitation.Invite, h]

theorem Invite_of_lookup_error (sum512 : List Byte → Digest) (env : InviteEnv) (c : Store)
    (i : Invitation) (e : GoError) (h : LoadInvitationByEmail env.findFault c i.Email = .error e) :
    i.Invite sum512 env c
      = ⟨(Insert env.insertFault c (i.assigned sum512 env)).2, i.assigned sum512 env,
          (Insert env.insertFault c (i.assigned sum512 env)).1,
          [.find (.byEmail i.Email), .insert (i.assigned sum512 env)]⟩ := by
  simp only [Invitation.Invite, h, Invitation.assigned]

theorem Activate_of_save_ok (env : ActivateEnv) (c : Store) (i d : Invitation)
    (h : env.save (accountRequest env i d) = none) :
    i.Activate env c d
      = ⟨(Remove env.removeFault c (.byId i.Id)).2, (Remove env.removeFault c (.byId i.Id)).1,
          [.save (accountRequest env i d), .remove (.byId i.Id)]⟩ := by
  simp only [accountRequest] at h
  simp only [Invitation.Activate, h, accountRequest]

theorem Activate_of_save_error (env : ActivateEnv) (c : Store) (i d : Invitation) (e : GoError)
    (h : env.save (accountRequest env i d) = some e) :
    i.Activate env c d = ⟨some e, c, [.save (accountRequest env i d)]⟩ := by
  simp only [accountRequest] at h
  simp only [Invitation.Activate, h, accountRequest]

theorem Remove_store_sublist (fault : Option String) (c : Store) (q : Query) :
    (Remove fault c q).1.Sublist c := by
  unfold Remove
  cases fault with
  | some msg => exact List.Sublist.refl c
  | none =>
    cases c.find? q.matches with
    | none => exact List.Sublist.refl c
    | some x => exact List.eraseP_sublist c

/-! ## Creation -/

theorem Invite_success_token (sum512 : List Byte → Digest) (env : InviteEnv) (c : Store)
    (i : Invitation) (hok : (i.Invite sum512 env c).err = none) :
    (i.Invite sum512 env c).inv.Id
        = Invitation.generateId sum512 env.int63 { i with MongoId := env.newObjectId }
      ∧ (i.Invite sum512 env c).inv.MongoId = env.newObjectId
      ∧ (i.Invite sum512 env c).inv.Email = i.Email
      ∧ (i.Invite sum512 env c).store = c ++ [(i.Invite sum512 env c).inv] := by
  cases hl : LoadInvitationByEmail env.findFault c i.Email with
  | ok x =>
    rw [Invite_of_found sum512 env c i x hl] at hok
    exact absurd hok (by simp)
  | error e =>
    rw [Invite_of_lookup_error sum512 env c i e hl] at hok ⊢
    cases hi : env.insertFault with
    | some msg => simp [hi, Insert] at hok
    | none => exact ⟨rfl, rfl, rfl, by simp [Insert]⟩

/-- C1, refuted for a second call whose lookup fails: `Invite` for an email
succeeds on the empty store; in the following `Invite` for the same email the
find-by-email lookup fails with a driver error, the insert succeeds; the call
returns `nil`, not the duplicate-invitation error, and the store holds two
invitations for the email. -/
theorem Invite_again_not_refused :
    ((Invitation.mk [] [] (ascii "alice@example.com") [] []).Invite exampleSum512
        ⟨none, 7, List.replicate 12 3, none⟩ []).err = none
    ∧ ((Invitation.mk [] [] (ascii "alice@example.com") [] []).Invite exampleSum512
        ⟨some "i/o timeout", 11, List.replicate 12 8, none⟩
        ((Invitation.mk [] [] (ascii "alice@example.com") [] []).Invite exampleSum512
          ⟨none, 7, List.replicate 12 3, none⟩ []).store).err = none
    ∧ ((Invitation.mk [] [] (ascii "alice@example.com") [] []).Invite exampleSum512
        ⟨some "i/o timeout", 11, List.replicate 12 8, none⟩
        ((Invitation.mk [] [] (ascii "alice@example.com") [] []).Invite exampleSum512
          ⟨none, 7, List.replicate 12 3, none⟩ []).store).store
      ≠ ((Invitation.mk [] [] (ascii "alice@example.com") [] []).Invite exampleSum512
          ⟨none, 7, List.replicate 12 3, none⟩ []).store
    ∧ (((Invitation.mk [] [] (ascii "alice@example.com") [] []).Invite exampleSum512
        ⟨some "i/o timeout", 11, List.replicate 12 8, none⟩
        ((Invitation.mk [] [] (ascii "alice@example.com") [] []).Invite exampleSum512
          ⟨none, 7, List.replicate 12 3, none⟩ []).store).store.map (·.Email))
      = [ascii "alice@example.com", ascii "alice@example.com"] := by
  decide

/-- C1, amended: if `Invite` on an invitation with email `E` succeeds, a
following `Invite` on any invitation with the same email, run on the store the
first call left and with its find-by-email lookup answered by the store (no
storage failure of the lookup), returns the duplicate-invitation error, makes no
call but the lookup, and leaves the store as the first call left it. -/
theorem Invite_again_is_duplicate (sum512 : List Byte → Digest) (env1 env2 : InviteEnv)
    (c : Store) (i1 i2 : Invitation)
    (hmail : i2.Email = i1.Email)
    (hok : (i1.Invite sum512 env1 c).err = none)
    (hfind : env2.findFault = none) :
    i2.Invite sum512 env2 (i1.Invite sum512 env1 c).store
      = ⟨some .alreadyInvited, i2, (i1.Invite sum512 env1 c).store,
          [.find (.byEmail i2.Email)]⟩ := by
  have hstore : (i1.Invite sum512 env1 c).store = c ++ [i1.assigned sum512 env1] := by
    cases hl : LoadInvitationByEmail env1.findFault c i1.Email with
    | ok x =>
      rw [Invite_of_found sum512 env1 c i1 x hl] at hok
      exact absurd hok (by simp)
    | error e =>
      rw [Invite_of_lookup_error sum512 env1 c i1 e hl] at hok ⊢
      cases hi : env1.insertFault with
      | some msg => simp [hi, Insert] at hok
      | none => simp [Insert]
  rw [hstore]
  have hm : (Query.byEmail i2.Email).matches (i1.assigned sum512 env1) = true := by
    simp [Query.matches, Invitation.assigned, hmail]
  obtain ⟨x, hx⟩ := find?_append_matching c (i1.assigned sum512 env1) _ hm
  have hload : LoadInvitationByEmail env2.findFault (c ++ [i1.assigned sum512 env1]) i2.Email
      = .ok x := by
    simp only [LoadInvitationByEmail, FindOne, hfind, hx]
  exact Invite_of_found sum512 env2 _ i2 x hload

/-- C1 amended, at an instance: two invitations for the same email on the empty store. -/
theorem Invite_again_is_duplicate_witness :
    ((Invitation.mk [] [] (ascii "alice@example.com") [] (ascii "Acme")).Invite exampleSum512
        ⟨none, 11, List.replicate 12 8, none⟩
        ((Invitation.mk [] [] (ascii "alice@example.com") [] []).Invite exampleSum512
          ⟨none, 7, List.replicate 12 3, none⟩ []).store).err
      = some .alreadyInvited :=
  congrArg InviteResult.err
    (Invite_again_is_duplicate exampleSum512 ⟨none, 7, List.replicate 12 3, none⟩
      ⟨none, 11, List.replicate 12 8, none⟩ []
      (Invitation.mk [] [] (ascii "alice@example.com") [] [])
      (Invitation.mk [] [] (ascii "alice@example.com") [] (ascii "Acme"))
      rfl (by decide) rfl)

/-! ## Activation -/

/-- C2: `Activate` asks the account collaborator to save exactly one account;
its email is `i.Email`, its organization `d.Organization`, its password is set
from `d.Password`; a call that differs only in `d.Email` does the same. -/
theorem Activate_saves_bound_account (env : ActivateEnv) (c : Store) (i d : Invitation) :
    (∃ u, savedUsers (i.Activate env c d).calls = [u]
        ∧ u = User.SetPassword env.hash ⟨i.Email, d.Organization, []⟩ d.Password
        ∧ u.Email = i.Email ∧ u.Organization = d.Organization
        ∧ u.Password = env.hash d.Password)
      ∧ ∀ mail : GoString, i.Activate env c { d with Email := mail } = i.Activate env c d := by
  refine ⟨⟨accountRequest env i d, ?_, rfl, rfl, rfl, rfl⟩, fun _ => rfl⟩
  cases h : env.save (accountRequest env i d) with
  | none => rw [Activate_of_save_ok env c i d h]; rfl
  | some e => rw [Activate_of_save_error env c i d e h]; rfl

/-- C3, refuted for an arbitrary store: two documents carry the token `T`; the
first is loaded by token and activated with success; `Remove` takes out one
document, and the lookup of `T` afterwards finds the other. -/
theorem Activate_success_token_still_found :
    LoadInvitationById none
        [⟨List.replicate 12 1, ascii "T", ascii "a@x.org", [], []⟩,
         ⟨List.replicate 12 2, ascii "T", ascii "b@x.org", [], []⟩] (ascii "T")
      = .ok ⟨List.replicate 12 1, ascii "T", ascii "a@x.org", [], []⟩
    ∧ ((Invitation.mk (List.replicate 12 1) (ascii "T") (ascii "a@x.org") [] []).Activate
        ⟨fun pw => pw, fun _ => none, none⟩
        [⟨List.replicate 12 1, ascii "T", ascii "a@x.org", [], []⟩,
         ⟨List.replicate 12 2, ascii "T", ascii "b@x.org", [], []⟩]
        ⟨[], [], [], ascii "pw", ascii "Acme"⟩).err = none
    ∧ LoadInvitationById none
        ((Invitation.mk (List.replicate 12 1) (ascii "T") (ascii "a@x.org") [] []).Activate
          ⟨fun pw => pw, fun _ => none, none⟩
          [⟨List.replicate 12 1, ascii "T", ascii "a@x.org", [], []⟩,
           ⟨List.replicate 12 2, ascii "T", ascii "b@x.org", [], []⟩]
          ⟨[], [], [], ascii "pw", ascii "Acme"⟩).store (ascii "T")
      = .ok ⟨List.replicate 12 2, ascii "T", ascii "b@x.org", [], []⟩ :=
  ⟨rfl, rfl, rfl⟩

/-- C3, amended: for every store in which at most one document carries the
token `T`, and every invitation loaded from it by the lookup of `T`, if
`Activate` returns success then a following lookup of `T`, answered by the
store, returns not-found. -/
theorem Activate_success_retires_unique_token (env : ActivateEnv) (fault : Option String)
    (c : Store) (i d : Invitation) (T : GoString)
    (hload : LoadInvitationById fault c T = .ok i)
    (huniq : TokenUnique c T)
    (hok : (i.Activate env c d).err = none) :
    LoadInvitationById none (i.Activate env c d).store T = .error .ErrNotFound := by
  obtain ⟨-, hfound⟩ := FindOne_ok_matches fault c (.byId T) i hload
  have hid : i.Id = T := by
    have := List.find?_some hfound
    simpa [Query.matches] using this
  cases hs : env.save (accountRequest env i d) with
  | some e =>
    rw [Activate_of_save_error env c i d e hs] at hok
    exact absurd hok (by simp)
  | none =>
    rw [Activate_of_save_ok env c i d hs] at hok ⊢
    rw [hid] at hok ⊢
    cases hr : env.removeFault with
    | some msg => simp [Remove, hr] at hok
    | none =>
      have herase : (c.eraseP (Query.byId T).matches).find? (Query.byId T).matches = none :=
        find?_eraseP_of_unique _ c huniq
      simp only [Remove, hfound, LoadInvitationById, FindOne, herase]

/-- C3 amended, at an instance: the only document of the store is activated. -/
theorem Activate_success_retires_unique_token_witness :
    LoadInvitationById none
        ((Invitation.mk (List.replicate 12 1) (ascii "T") (ascii "a@x.org") [] []).Activate
          ⟨fun pw => pw, fun _ => none, none⟩
          [⟨List.replicate 12 1, ascii "T", ascii "a@x.org", [], []⟩]
          ⟨[], [], [], ascii "pw", ascii "Acme"⟩).store (ascii "T")
      = .error .ErrNotFound :=
  Activate_success_retires_unique_token ⟨fun pw => pw, fun _ => none, none⟩ none
    [⟨List.replicate 12 1, ascii "T", ascii "a@x.org", [], []⟩]
    ⟨List.replicate 12 1, ascii "T", ascii "a@x.org", [], []⟩
    ⟨[], [], [], ascii "pw", ascii "Acme"⟩ (ascii "T") rfl (by decide) rfl

/-- C4: for a pending invitation loaded by the lookup of `T`, if the account
collaborator's save fails with error `e`, then `Activate` returns exactly `e`,
makes no call but the save (no removal), leaves the store unchanged, and the
lookup of `T` afterwards still returns the original invitation. -/
theorem Activate_save_failure_preserves (env : ActivateEnv) (fault : Option String) (c : Store)
    (i d : Invitation) (T : GoString) (e : GoError)
    (hload : LoadInvitationById fault c T = .ok i)
    (hfail : env.save (User.SetPassword env.hash ⟨i.Email, d.Organization, []⟩ d.Password)
      = some e) :
    i.Activate env c d
        = ⟨some e, c, [.save (User.SetPassword env.hash ⟨i.Email, d.Organization, []⟩ d.Password)]⟩
      ∧ (∀ q, Call.remove q ∉ (i.Activate env c d).calls)
      ∧ LoadInvitationById fault (i.Activate env c d).store T = .ok i := by
  have h := Activate_of_save_error env c i d e hfail
  rw [h]
  exact ⟨rfl, by simp, hload⟩

/-- C4, at an instance: the account collaborator rejects the account. -/
theorem Activate_save_failure_preserves_witness :
    ((Invitation.mk (List.replicate 12 1) (ascii "T") (ascii "a@x.org") [] []).Activate
        ⟨fun pw => pw, fun _ => some (.failure "account exists"), none⟩
        [⟨List.replicate 12 1, ascii "T", ascii "a@x.org", [], []⟩]
        ⟨[], [], [], ascii "pw", ascii "Acme"⟩).err = some (.failure "account exists") :=
  congrArg ActivateResult.err
    (Activate_save_failure_preserves ⟨fun pw => pw, fun _ => some (.failure "account exists"), none⟩
      none [⟨List.replicate 12 1, ascii "T", ascii "a@x.org", [], []⟩]
      ⟨List.replicate 12 1, ascii "T", ascii "a@x.org", [], []⟩
      ⟨[], [], [], ascii "pw", ascii "Acme"⟩ (ascii "T") (.failure "account exists") rfl rfl).1

/-! ## Lookup failures in `Invite` -/

/-- C6, refuted: on the empty store the lookup fails with a driver error; `Invite`
does not return it but goes on, inserts the invitation and returns `nil`. -/
theorem Invite_swallows_lookup_failure :
    ((Invitation.mk [] [] (ascii "a@x.org") [] []).Invite exampleSum512
        ⟨some "i/o timeout", 7, List.replicate 12 3, none⟩ []).err = none
    ∧ ((Invitation.mk [] [] (ascii "a@x.org") [] []).Invite exampleSum512
        ⟨some "i/o timeout", 7, List.replicate 12 3, none⟩ []).store
      = [(Invitation.mk [] [] (ascii "a@x.org") [] []).assigned exampleSum512
          ⟨some "i/o timeout", 7, List.replicate 12 3, none⟩]
    ∧ ((Invitation.mk [] [] (ascii "a@x.org") [] []).Invite exampleSum512
        ⟨some "i/o timeout", 7, List.replicate 12 3, none⟩ []).calls
      = [.find (.byEmail (ascii "a@x.org")),
         .insert ((Invitation.mk [] [] (ascii "a@x.org") [] []).assigned exampleSum512
          ⟨some "i/o timeout", 7, List.replicate 12 3, none⟩)] := by
  decide

/-- C6, amended: whenever the find-by-email lookup fails, with not-found or with
a storage failure alike, `Invite` drops the lookup's error, assigns key and
token, calls the insert and returns the insert's result: `nil` and the store
with the new document when the insert succeeds, the insert's own error and the
store unchanged when it fails. -/
theorem Invite_proceeds_on_any_lookup_error (sum512 : List Byte → Digest) (env : InviteEnv)
    (c : Store) (i : Invitation) (e : GoError)
    (hlookup : LoadInvitationByEmail env.findFault c i.Email = .error e) :
    (i.Invite sum512 env c).calls
        = [.find (.byEmail i.Email), .insert (i.assigned sum512 env)]
      ∧ (env.insertFault = none →
          (i.Invite sum512 env c).err = none
            ∧ (i.Invite sum512 env c).store = c ++ [i.assigned sum512 env])
      ∧ (∀ msg, env.insertFault = some msg →
          (i.Invite sum512 env c).err = some (.failure msg)
            ∧ (i.Invite sum512 env c).store = c) := by
  rw [Invite_of_lookup_error sum512 env c i e hlookup]
  refine ⟨rfl, ?_, ?_⟩
  · intro h; simp [Insert, h]
  · intro msg h; simp [Insert, h]

/-- C6 amended, at an instance: a storage failure of the lookup, then a
successful insert. -/
theorem Invite_proceeds_on_any_lookup_error_witness :
    ((Invitation.mk [] [] (ascii "a@x.org") [] []).Invite exampleSum512
        ⟨some "i/o timeout", 7, List.replicate 12 3, none⟩
        [⟨List.replicate 12 1, ascii "T", ascii "b@x.org", [], []⟩]).err = none :=
  ((Invite_proceeds_on_any_lookup_error exampleSum512
      ⟨some "i/o timeout", 7, List.replicate 12 3, none⟩
      [⟨List.replicate 12 1, ascii "T", ascii "b@x.org", [], []⟩]
      (Invitation.mk [] [] (ascii "a@x.org") [] []) (.failure "i/o timeout") rfl).2.1 rfl).1

/-! ## One invitation per email -/

/-- C5, refuted for any outcome of the store: the store holds one invitation for
an email; the lookup of a second `Invite` for that email fails with a driver
error, the insert succeeds, and the store holds two invitations for the email. -/
theorem Invite_breaks_one_per_email :
    AtMostOnePerEmail [⟨List.replicate 12 1, ascii "T", ascii "a@x.org", [], []⟩]
    ∧ ¬ AtMostOnePerEmail
        ((Invitation.mk [] [] (ascii "a@x.org") [] []).Invite exampleSum512
          ⟨some "i/o timeout", 7, List.replicate 12 3, none⟩
          [⟨List.replicate 12 1, ascii "T", ascii "a@x.org", [], []⟩]).store := by
  decide

theorem Invite_preserves_one_per_email (sum512 : List Byte → Digest) (c : Store)
    (env : InviteEnv) (i : Invitation) (hinv : AtMostOnePerEmail c)
    (hfind : env.findFault = none) : AtMostOnePerEmail (i.Invite sum512 env c).store := by
  cases hl : LoadInvitationByEmail env.findFault c i.Email with
  | ok x =>
    rw [Invite_of_found sum512 env c i x hl]
    exact hinv
  | error e =>
    rw [Invite_of_lookup_error sum512 env c i e hl]
    cases hi : env.insertFault with
    | some msg => simpa [Insert] using hinv
    | none =>
      have hnone : c.find? (Query.byEmail i.Email).matches = none := by
        simp only [LoadInvitationByEmail, FindOne, hfind] at hl
        cases hf : c.find? (Query.byEmail i.Email).matches with
        | none => rfl
        | some y => simp [hf] at hl
      have hfresh : i.Email ∉ c.map (·.Email) := by
        intro hmem
        obtain ⟨y, hy, hye⟩ := List.mem_map.mp hmem
        have := List.find?_eq_none.mp hnone y hy
        exact this (by simp [Query.matches, hye])
      have hmail : (i.assigned sum512 env).Email = i.Email := rfl
      unfold AtMostOnePerEmail at hinv ⊢
      simp only [Insert, List.map_append, List.map_cons, List.map_nil, hmail]
      rw [List.nodup_append]
      refine ⟨hinv, List.nodup_singleton _, ?_⟩
      intro a ha hb
      rw [List.mem_singleton] at hb
      exact hfresh (hb ▸ ha)

theorem Activate_preserves_one_per_email (c : Store) (env : ActivateEnv) (i d : Invitation)
    (hinv : AtMostOnePerEmail c) : AtMostOnePerEmail (i.Activate env c d).store := by
  cases hs : env.save (accountRequest env i d) with
  | some e =>
    rw [Activate_of_save_error env c i d e hs]
    exact hinv
  | none =>
    rw [Activate_of_save_ok env c i d hs]
    exact List.Nodup.sublist ((Remove_store_sublist _ c _).map _) hinv

/-- C5, amended: `the store holds at most one invitation per email` is kept by
every call of `Activate`, with any outcome of the collaborators, and by every
call of `Invite` whose find-by-email lookup is answered by the store (found or
not-found), with any outcome of the insert; hence every store reachable from the
empty store by such calls holds at most one invitation for any email. -/
theorem one_per_email_invariant (sum512 : List Byte → Digest) :
    (∀ (c : Store) (env : InviteEnv) (i : Invitation), AtMostOnePerEmail c →
        env.findFault = none → AtMostOnePerEmail (i.Invite sum512 env c).store)
      ∧ (∀ (c : Store) (env : ActivateEnv) (i d : Invitation), AtMostOnePerEmail c →
        AtMostOnePerEmail (i.Activate env c d).store)
      ∧ (∀ c : Store, Reachable sum512 c → AtMostOnePerEmail c) := by
  refine ⟨Invite_preserves_one_per_email sum512, Activate_preserves_one_per_email, ?_⟩
  intro c hc
  induction hc with
  | empty => exact List.nodup_nil
  | invite c env i _ hfind ih => exact Invite_preserves_one_per_email sum512 c env i ih hfind
  | activate c env i d _ ih => exact Activate_preserves_one_per_email c env i d ih

/-- C5 amended, at an instance: a second `Invite` for an email already in the
store, the lookup answered by the store. -/
theorem one_per_email_invariant_witness :
    AtMostOnePerEmail
        ((Invitation.mk [] [] (ascii "a@x.org") [] []).Invite exampleSum512
          ⟨none, 7, List.replicate 12 3, none⟩
          [⟨List.replicate 12 1, ascii "T", ascii "a@x.org", [], []⟩]).store :=
  (one_per_email_invariant exampleSum512).1
    [⟨List.replicate 12 1, ascii "T", ascii "a@x.org", [], []⟩]
    ⟨none, 7, List.replicate 12 3, none⟩ (Invitation.mk [] [] (ascii "a@x.org") [] [])
    (by decide) rfl

/-! ## The responses -/

theorem jsonStringFrom_of_valid :
    ∀ (s : GoString) (pending : Nat), validFrom pending s = true → jsonStringFrom pending s = s := by
  intro s
  induction s with
  | nil => intro pending _; cases pending <;> rfl
  | cons b rest ih =>
    intro pending h
    cases pending with
    | succ k =>
      simp only [validFrom] at h
      simp only [jsonStringFrom, ih k h]
    | zero =>
      simp only [validFrom] at h
      simp only [jsonStringFrom]
      by_cases hb : b.val < 0x80
      · simp only [hb, if_true] at h ⊢
        rw [ih 0 h]
      · simp only [hb, if_false] at h ⊢
        cases hd : DecodeRuneSize (b :: rest) with
        | none => simp [hd] at h
        | some size =>
          simp only [hd] at h ⊢
          rw [ih (size - 1) h]

theorem jsonString_invalid_bytes :
    jsonString [0xff] = [0xEF, 0xBF, 0xBD] ∧ jsonString [0xfe] = [0xEF, 0xBF, 0xBD]
      ∧ jsonString [0xC3, 0xA9] = [0xC3, 0xA9] ∧ jsonString [0xC3] = [0xEF, 0xBF, 0xBD] := by
  decide

theorem jsonString_of_valid (s : GoString) (h : ValidString s = true) : jsonString s = s :=
  jsonStringFrom_of_valid s 0 h

theorem MarshalJSON_members (i : Invitation) :
    i.MarshalJSON.member "MongoId" = some (.str (ObjectId.Hex i.MongoId))
      ∧ i.MarshalJSON.member "Email" = some (.str (jsonString i.Email))
      ∧ i.MarshalJSON.member "Password" = some (.str (jsonString i.Password))
      ∧ i.MarshalJSON.member "Organization" = some (.str (jsonString i.Organization)) := by
  by_cases h : i.Id = [] <;>
    simp [Invitation.MarshalJSON, Json.member, h, List.find?]

/-- C9, refuted: two invitations that differ only in `Password` produce
different response bodies, in `getInvitation` (the stored document is returned)
and in a successful `createInvitation` (the submitted invitation is returned);
each body carries the password. -/
theorem response_depends_on_password :
    getInvitation none [⟨List.replicate 12 1, ascii "T", ascii "a@x.org", ascii "pw1", []⟩]
        ⟨none, ascii "T", none⟩
      ≠ getInvitation none [⟨List.replicate 12 1, ascii "T", ascii "a@x.org", ascii "pw2", []⟩]
        ⟨none, ascii "T", none⟩
    ∧ (createInvitation exampleSum512 ⟨none, 7, List.replicate 12 3, none⟩ []
        ⟨some User.zero, [], some ⟨some ⟨[], [], ascii "a@x.org", ascii "pw1", []⟩⟩⟩).response
      ≠ (createInvitation exampleSum512 ⟨none, 7, List.replicate 12 3, none⟩ []
        ⟨some User.zero, [], some ⟨some ⟨[], [], ascii "a@x.org", ascii "pw2", []⟩⟩⟩).response
    ∧ (getInvitation none [⟨List.replicate 12 1, ascii "T", ascii "a@x.org", ascii "pw1", []⟩]
        ⟨none, ascii "T", none⟩).echoedPassword = some (.str (ascii "pw1")) := by
  refine ⟨?_, ?_, ?_⟩
  · intro h
    have h2 := congrArg Response.echoedPassword h
    have e1 : (getInvitation none
        [⟨List.replicate 12 1, ascii "T", ascii "a@x.org", ascii "pw1", []⟩]
        ⟨none, ascii "T", none⟩).echoedPassword = some (.str (ascii "pw1")) := rfl
    have e2 : (getInvitation none
        [⟨List.replicate 12 1, ascii "T", ascii "a@x.org", ascii "pw2", []⟩]
        ⟨none, ascii "T", none⟩).echoedPassword = some (.str (ascii "pw2")) := rfl
    rw [e1, e2] at h2
    simp only [Option.some.injEq, Json.str.injEq] at h2
    exact absurd h2 (by decide)
  · intro h
    have h2 := congrArg (fun r => Option.bind r Response.echoedPassword) h
    have e1 : Option.bind (createInvitation exampleSum512 ⟨none, 7, List.replicate 12 3, none⟩ []
        ⟨some User.zero, [], some ⟨some ⟨[], [], ascii "a@x.org", ascii "pw1", []⟩⟩⟩).response
        Response.echoedPassword = some (.str (ascii "pw1")) := rfl
    have e2 : Option.bind (createInvitation exampleSum512 ⟨none, 7, List.replicate 12 3, none⟩ []
        ⟨some User.zero, [], some ⟨some ⟨[], [], ascii "a@x.org", ascii "pw2", []⟩⟩⟩).response
        Response.echoedPassword = some (.str (ascii "pw2")) := rfl
    simp only [e1, e2, Option.some.injEq, Json.str.injEq] at h2
    exact absurd h2 (by decide)
  · rfl

/-- C9, amended: the entity written by `getInvitation` and by a successful
`createInvitation` is the wrapper around the whole invitation, with the members
`MongoId`, `id` (left out when empty), `Email`, `Password` and `Organization`;
the invitation's password is written back under `Password` as `encoding/json`
writes a string: unchanged when it is valid UTF-8, with U+FFFD for every byte
outside a valid encoding otherwise. Two invitations that differ only in
`Password` produce different bodies whenever these written strings differ, so
whenever both passwords are valid UTF-8. -/
theorem response_is_whole_invitation (sum512 : List Byte → Digest) (env : InviteEnv)
    (fault : Option String) (c : Store) (req : Request) :
    (∀ inv, LoadInvitationById fault c req.entry = .ok inv →
        getInvitation fault c req = .entity (.obj [("Invitation", inv.MarshalJSON)])
          ∧ (getInvitation fault c req).echoedPassword = some (.str (jsonString inv.Password)))
      ∧ (∀ u i, req.user = some u → req.entity = some ⟨some i⟩ →
        (i.Invite sum512 env c).err = none →
        (createInvitation sum512 env c req).response
            = some (.entity (.obj [("Invitation", (i.assigned sum512 env).MarshalJSON)]))
          ∧ ((createInvitation sum512 env c req).response.bind Response.echoedPassword)
            = some (.str (jsonString i.Password)))
      ∧ (∀ i : Invitation, i.MarshalJSON
          = .obj ([("MongoId", .str (ObjectId.Hex i.MongoId))]
              ++ (if i.Id = [] then [] else [("id", .str (jsonString i.Id))])
              ++ [("Email", .str (jsonString i.Email)),
                  ("Password", .str (jsonString i.Password)),
                  ("Organization", .str (jsonString i.Organization))]))
      ∧ (∀ pw : GoString, ValidString pw = true → jsonString pw = pw)
      ∧ (∀ (i : Invitation) (pw1 pw2 : GoString), jsonString pw1 ≠ jsonString pw2 →
          ({ i with Password := pw1 } : Invitation).MarshalJSON
            ≠ ({ i with Password := pw2 } : Invitation).MarshalJSON)
      ∧ (∀ (i : Invitation) (pw1 pw2 : GoString), ValidString pw1 = true →
          ValidString pw2 = true → pw1 ≠ pw2 →
          ({ i with Password := pw1 } : Invitation).MarshalJSON
            ≠ ({ i with Password := pw2 } : Invitation).MarshalJSON) := by
  have hdiff : ∀ (i : Invitation) (pw1 pw2 : GoString), jsonString pw1 ≠ jsonString pw2 →
      ({ i with Password := pw1 } : Invitation).MarshalJSON
        ≠ ({ i with Password := pw2 } : Invitation).MarshalJSON := by
    intro i pw1 pw2 hne heq
    have h1 := (MarshalJSON_members { i with Password := pw1 }).2.2.1
    have h2 := (MarshalJSON_members { i with Password := pw2 }).2.2.1
    rw [heq, h2] at h1
    simp only [Option.some.injEq, Json.str.injEq] at h1
    exact hne h1.symm
  refine ⟨?_, ?_, fun _ => rfl, jsonString_of_valid, hdiff, ?_⟩
  · intro inv h
    have hget : getInvitation fault c req = .entity (.obj [("Invitation", inv.MarshalJSON)]) := by
      simp only [getInvitation, h, InvitationWrapper.MarshalJSON]
    refine ⟨hget, ?_⟩
    rw [hget]
    have hm := (MarshalJSON_members inv).2.2.1
    simp [Response.echoedPassword, Json.member, List.find?] at hm ⊢
    exact hm
  · intro u i hu he hok
    have hinv : (i.Invite sum512 env c).inv = i.assigned sum512 env := by
      cases hl : LoadInvitationByEmail env.findFault c i.Email with
      | ok x =>
        rw [Invite_of_found sum512 env c i x hl] at hok
        exact absurd hok (by simp)
      | error e => rw [Invite_of_lookup_error sum512 env c i e hl]
    have hresp : (createInvitation sum512 env c req).response
        = some (.entity (.obj [("Invitation", (i.assigned sum512 env).MarshalJSON)])) := by
      simp only [createInvitation, hu, he, hok, hinv, InvitationWrapper.MarshalJSON,
        Ended.response]
    refine ⟨hresp, ?_⟩
    rw [hresp]
    have hm := (MarshalJSON_members (i.assigned sum512 env)).2.2.1
    have hpw : (i.assigned sum512 env).Password = i.Password := rfl
    rw [hpw] at hm
    simp [Response.echoedPassword, Json.member, List.find?] at hm ⊢
    exact hm
  · intro i pw1 pw2 hv1 hv2 hne
    apply hdiff
    rw [jsonString_of_valid pw1 hv1, jsonString_of_valid pw2 hv2]
    exact hne

/-- C9 amended, at an instance: the stored password comes back from
`getInvitation`. -/
theorem response_is_whole_invitation_witness :
    (getInvitation none [⟨List.replicate 12 1, ascii "T", ascii "a@x.org", ascii "pw1", []⟩]
        ⟨none, ascii "T", none⟩).echoedPassword = some (.str (ascii "pw1")) :=
  ((response_is_whole_invitation exampleSum512 ⟨none, 7, List.replicate 12 3, none⟩ none
      [⟨List.replicate 12 1, ascii "T", ascii "a@x.org", ascii "pw1", []⟩]
      ⟨none, ascii "T", none⟩).1
    ⟨List.replicate 12 1, ascii "T", ascii "a@x.org", ascii "pw1", []⟩ rfl).2

/-- C10, the failing input: a logged-in request whose body decodes to a wrapper
without invitation. `createInvitation` ends in the nil dereference for every
store and environment; `editInvitation` ends in it when the entry is found. -/
theorem handlers_panic_on_nil_invitation :
    (∀ (sum512 : List Byte → Digest) (env : InviteEnv) (c : Store) (u : User) (entry : GoString),
        createInvitation sum512 env c ⟨some u, entry, some ⟨none⟩⟩ = .nilDereference)
      ∧ editInvitation none ⟨fun pw => pw, fun _ => none, none⟩
          [⟨List.replicate 12 1, ascii "T", ascii "a@x.org", [], []⟩]
          ⟨some User.zero, ascii "T", some ⟨none⟩⟩ = .nilDereference :=
  ⟨fun _ _ _ _ _ => rfl, rfl⟩

end Void
